import Mathlib

/-!
Shallow embedding of the sqruff lexing-to-parse pipeline
(crates/lib/src/core/parser/lexer.rs and crates/lib/src/core/parser/parser.rs).

Modelling conventions:
* Strings are modelled as `List Char`; the byte indices of the Rust code
  become character indices (every input used below is ASCII, where the two
  coincide).
* The regexes of the external fancy_regex crate are modelled, one by one for
  each concrete pattern string appearing in the source, as explicit
  leftmost-match functions returning the matched range, faithful to the
  leftmost-first / greedy semantics of the crate on those patterns.
* Rust `loop`/`while` constructs are modelled with a fuel parameter; fuel
  exhaustion takes the loop's normal exit path, so each function agrees with
  the source whenever the source's loop terminates (the canonical fuel,
  input length + 1, suffices whenever every iteration consumes at least one
  character; on patterns able to match the empty string the Rust loops
  diverge and have no terminating behaviour to model).
* Rust panics (`panic!`, `unimplemented!`, out-of-bounds indexing) are
  modelled as `Option.none` of the enclosing computation.
* Token-constructor function pointers (`fn(&str, PositionMarker) ->
  ErasedSegment`) are represented by the classifying name that selects
  them; a produced segment is modelled by its name, raw text and the two
  slices of its position marker.
-/

/-- An element matched during lexing (lexer.rs, `struct Element`): the
classifying name and the matched text slice. -/
structure Element where
  name : String
  text : List Char
deriving DecidableEq, Repr

/-- Result of one matcher application (lexer.rs, `struct Match`): the
unconsumed remainder and the elements produced. -/
structure LexMatch where
  elements : List Element
  forward_string : List Char
deriving DecidableEq, Repr

/-- The two matching strategies of lexer.rs `enum SearchPatternKind`: a
literal string, or a regex modelled by its leftmost-match function. -/
inductive SearchPatternKind where
  | string (template : List Char)
  | regex (find : List Char → Option (Nat × Nat))

/-- lexer.rs `struct Pattern`: a name plus a matching strategy. -/
structure Pattern where
  name : String
  kind : SearchPatternKind

/-- Rust slice `s[st..en]` on our list model. -/
def extractRange (s : List Char) (st en : Nat) : List Char :=
  (s.drop st).take (en - st)

/-- Rust `str::find` for a literal: index of the first occurrence of
`template` in the string, scanning left to right. -/
def strFind (template : List Char) : List Char → Option Nat
  | [] => if template = [] then some 0 else none
  | c :: t =>
    if (c :: t).take template.length = template then some 0
    else (strFind template t).map (fun i => i + 1)

/-- lexer.rs `Pattern::matches`: anchored match.  A string pattern matches
iff it is a prefix; a regex pattern matches iff the leftmost occurrence
starts at offset 0. -/
def Pattern.matches (p : Pattern) (forward_string : List Char) : Option (List Char) :=
  match p.kind with
  | .string template =>
    if forward_string.take template.length = template then some template else none
  | .regex find =>
    match find forward_string with
    | some (st, en) => if st = 0 then some (forward_string.take en) else none
    | none => none

/-- lexer.rs `Pattern::search`: unanchored search returning the range of the
first occurrence anywhere in the input. -/
def Pattern.search (p : Pattern) (forward_string : List Char) : Option (Nat × Nat) :=
  match p.kind with
  | .string template =>
    (strFind template forward_string).map (fun st => (st, st + template.length))
  | .regex find => find forward_string

/-- lexer.rs `struct Matcher`: a pattern with optional subdivider and
optional post-subdivide trim pattern. -/
structure Matcher where
  pattern : Pattern
  subdivider : Option Pattern
  trim_post_subdivide : Option Pattern

/-- The flush after `Matcher::trim_match`'s loop (lexer.rs lines 217-220):
any leftover content or buffer becomes one element tagged with the
matcher's own pattern name. -/
def trimFlush (pname : String) (content s : List Char) : List Element :=
  if content = [] ∧ s = [] then [] else [⟨pname, content ++ s⟩]

/-- Loop body of `Matcher::trim_match` (lexer.rs lines 188-215), with fuel.
`pname` is the enclosing matcher's own pattern name, `t` the configured
trim pattern, `content` the accumulating content buffer. -/
def trimMatchAux (pname : String) (t : Pattern) : Nat → List Char → List Char → List Element
  | 0, content, s => trimFlush pname content s
  | fuel + 1, content, s =>
    if s = [] then trimFlush pname content s
    else
      match t.search s with
      | none => trimFlush pname content s
      | some (st, en) =>
        if st = 0 then
          ⟨t.name, s.take en⟩ :: trimMatchAux pname t fuel content (s.drop en)
        else if en = s.length then
          ⟨t.name, content ++ s.take st⟩ :: ⟨t.name, extractRange s st en⟩ ::
            trimMatchAux pname t fuel [] []
        else
          trimMatchAux pname t fuel (content ++ s.take en) (s.drop en)

/-- lexer.rs `Matcher::trim_match`: without a trim pattern it returns the
empty list; otherwise it runs the trim loop. -/
def Matcher.trimMatch (m : Matcher) (matched_str : List Char) : List Element :=
  match m.trim_post_subdivide with
  | none => []
  | some t => trimMatchAux m.pattern.name t (matched_str.length + 1) [] matched_str

/-- Loop of `Matcher::subdivide` when a subdivider is configured
(lexer.rs lines 144-168), with fuel. -/
def subdivideAux (m : Matcher) (d : Pattern) : Nat → List Char → List Element
  | 0, s => m.trimMatch s
  | fuel + 1, s =>
    if s = [] then []
    else
      match d.search s with
      | none => m.trimMatch s
      | some (st, en) =>
        m.trimMatch (s.take st) ++
          (⟨d.name, extractRange s st en⟩ :: subdivideAux m d fuel (s.drop en))

/-- lexer.rs `Matcher::subdivide`: one element tagged with the matcher's own
name when no subdivider is configured, else the subdividing loop. -/
def Matcher.subdivide (m : Matcher) (matched : List Char) : List Element :=
  match m.subdivider with
  | none => [⟨m.pattern.name, matched⟩]
  | some d => subdivideAux m d (matched.length + 1) matched

/-- lexer.rs `Matcher::matches`: anchored pattern attempt; on success the
matched text is subdivided and the remainder returned, on failure empty
elements with the original string as remainder. -/
def Matcher.matches (m : Matcher) (forward_string : List Char) : LexMatch :=
  match m.pattern.matches forward_string with
  | some matched => ⟨m.subdivide matched, forward_string.drop matched.length⟩
  | none => ⟨[], forward_string⟩

/-- The inner `for matcher in lexer_matchers` scan of `Lexer::lex_match`
(lexer.rs lines 393-401): the first matcher producing non-empty elements
wins. -/
def firstNonEmpty (lexer_matchers : List Matcher) (forward_string : List Char) :
    Option LexMatch :=
  lexer_matchers.findSome? fun matcher =>
    let r := matcher.matches forward_string
    if r.elements.isEmpty then none else some r

/-- The outer loop of `Lexer::lex_match` (lexer.rs lines 386-405), with
fuel: repeatedly let the first successful matcher consume input, restarting
matcher selection from the top of the list. -/
def lexMatchGo (lexer_matchers : List Matcher) : Nat → List Char → LexMatch
  | 0, s => ⟨[], s⟩
  | fuel + 1, s =>
    if s = [] then ⟨[], s⟩
    else
      match firstNonEmpty lexer_matchers s with
      | none => ⟨[], s⟩
      | some r =>
        let rest := lexMatchGo lexer_matchers fuel r.forward_string
        ⟨r.elements ++ rest.elements, rest.forward_string⟩

/-- lexer.rs `Lexer::lex_match` with its canonical fuel (one unit per
consumed character suffices for every progressing matcher list). -/
def lexMatch (lexer_matchers : List Matcher) (s : List Char) : LexMatch :=
  lexMatchGo lexer_matchers (s.length + 1) s

/-- Whitespace characters of the regex class `\s` restricted to ASCII. -/
def isWsChar (c : Char) : Bool :=
  c = ' ' || c = '\t' || c = '\n' || c = '\r' || c = '\x0b' || c = '\x0c'

/-- Length of the maximal whitespace prefix run (the greedy `\s+`). -/
def wsRun : List Char → Nat
  | [] => 0
  | c :: t => if isWsChar c then wsRun t + 1 else 0

/-- Match length, at the current position, of the fancy_regex pattern
of the function_script_terminator matcher used by the lexer test
(lexer.rs line 616), with alternation tried left to right:
a semicolon, one-or-more whitespace, a slash not followed by a star; or
one-or-more whitespace, a slash not followed by a star.  The greedy `\s+`
can only stop at the end of the whitespace run, since the following
character must be a slash. -/
def fstMatchAt (l : List Char) : Option Nat :=
  let branch2 : Option Nat :=
    let k := wsRun l
    if 0 < k ∧ (l.drop k).head? = some '/' ∧ (l.drop (k + 1)).head? ≠ some '*'
    then some (k + 1) else none
  match l with
  | ';' :: rest =>
    let k := wsRun rest
    if 0 < k ∧ (rest.drop k).head? = some '/' ∧ (rest.drop (k + 1)).head? ≠ some '*'
    then some (k + 2) else branch2
  | _ => branch2

/-- Leftmost-match scan for `fstMatchAt`. -/
def fstFindAux : List Char → Nat → Option (Nat × Nat)
  | [], _ => none
  | c :: t, pos =>
    match fstMatchAt (c :: t) with
    | some len => some (pos, pos + len)
    | none => fstFindAux t (pos + 1)

/-- fancy_regex `find` for the function_script_terminator pattern. -/
def fstFind (s : List Char) : Option (Nat × Nat) := fstFindAux s 0

/-- Length of the maximal prefix run of newline units, a unit being a
line feed or a carriage-return line-feed pair (the greedy match of the
trim pattern of lexer.rs line 622). -/
def nlRun : List Char → Nat
  | '\n' :: t => nlRun t + 1
  | '\r' :: '\n' :: t => nlRun t + 2
  | _ => 0

/-- fancy_regex `find` for the newline trim pattern: leftmost position
where a newline unit starts, extended greedily over the whole run. -/
def nlFind : List Char → Option (Nat × Nat)
  | [] => none
  | c :: t =>
    let r := nlRun (c :: t)
    if 0 < r then some (0, r)
    else (nlFind t).map (fun p => (p.1 + 1, p.2 + 1))

/-- Length of the maximal prefix run of characters other than tab, line
feed and dot (the greedy match of the last-resort pattern of lexer.rs
line 310). -/
def unlexRun : List Char → Nat
  | [] => 0
  | c :: t => if c = '\t' || c = '\n' || c = '.' then 0 else unlexRun t + 1

/-- fancy_regex `find` for the last-resort pattern: a star regex, so it
always matches at offset 0, greedily taking the whole run (possibly
empty). -/
def unlexFind (s : List Char) : Option (Nat × Nat) := some (0, unlexRun s)

/-- The semicolon subdivider of the lexer test (lexer.rs line 619). -/
def semicolonPattern : Pattern := ⟨"semicolon", .string [';']⟩

/-- The newline trim pattern of the lexer test (lexer.rs lines 620-624). -/
def newlinePattern : Pattern := ⟨"newline", .regex nlFind⟩

/-- The function_script_terminator regex pattern (lexer.rs lines 614-618). -/
def fstPattern : Pattern := ⟨"function_script_terminator", .regex fstFind⟩

/-- The matcher of the trim_post_subdivide lexer test (lexer.rs lines
613-625): regex pattern, semicolon subdivider, newline trim. -/
def functionScriptTerminator : Matcher :=
  ⟨fstPattern, some semicolonPattern, some newlinePattern⟩

/-- The same matcher with the subdivider but no trim pattern configured. -/
def fstNoTrim : Matcher := ⟨fstPattern, some semicolonPattern, none⟩

/-- The string matcher of the lexer test (lexer.rs line 664). -/
def dotMatcher : Matcher := ⟨⟨"dot", .string ['.']⟩, none, none⟩

/-- The dialect-specific lambda matcher (dialects/clickhouse.rs line 139). -/
def lambdaMatcher : Matcher := ⟨⟨"lambda", .string ['-', '>']⟩, none, none⟩

/-- A single-dash matcher standing for the generic operator matcher. -/
def dashMatcher : Matcher := ⟨⟨"dash", .string ['-']⟩, none, none⟩

/-- lexer.rs `Lexer::new` line 310: the fallback matcher for unlexable
input. -/
def lastResortLexer : Matcher := ⟨⟨"<unlexable>", .regex unlexFind⟩, none, none⟩

/-- A slice of the templated file (spec section 6 contract): slice type,
source range and templated range. -/
structure TemplatedFileSlice where
  slice_type : String
  source_slice : Nat × Nat
  templated_slice : Nat × Nat
deriving DecidableEq, Repr

/-- The templated string together with its slice map.  The type itself is
owned by the templater collaborator (outside src). -/
structure TemplatedFile where
  templated_str : List Char
  sliced_file : List TemplatedFileSlice
deriving DecidableEq, Repr

/-- Modelled from the spec: `TemplatedFile::from_string` is not under src;
spec section 4.2 says `lex` wraps a plain string trivially when no
templating occurred, so the whole string is one literal slice mapping to
itself. -/
def TemplatedFile.from_string (s : List Char) : TemplatedFile :=
  ⟨s, [⟨"literal", (0, s.length), (0, s.length)⟩]⟩

/-- lexer.rs `struct TemplateElement`: an element plus its slice in the
templated file; the matcher `Info` is represented by its name. -/
structure TemplateElement where
  raw : List Char
  template_slice : Nat × Nat
  matcherName : String
deriving DecidableEq, Repr

/-- Loop of `Lexer::map_template_slices` (lexer.rs lines 418-437), carrying
the cumulative index.  The fatal internal-consistency check (the substring
of the templated string at the assigned slice must equal the element's
text, with out-of-range indexing also fatal) is modelled as `none`. -/
def mapTSAux (templated_string : List Char) : Nat → List Element → Option (List TemplateElement)
  | _, [] => some []
  | idx, e :: rest =>
    let len := e.text.length
    if (templated_string.drop idx).take len = e.text then
      (mapTSAux templated_string (idx + len) rest).map
        (⟨e.text, (idx, idx + len), e.name⟩ :: ·)
    else none

/-- lexer.rs `Lexer::map_template_slices`. -/
def mapTemplateSlices (elements : List Element) (template : TemplatedFile) :
    Option (List TemplateElement) :=
  mapTSAux template.templated_str 0 elements

/-- A produced leaf segment (`ErasedSegment` restricted to what the lexer
builds): the classifying name, the raw text, and the source and templated
slices of its position marker. -/
structure RawSeg where
  name : String
  raw : List Char
  source_slice : Nat × Nat
  templated_slice : Nat × Nat
deriving DecidableEq, Repr

/-- lexer.rs `TemplateElement::to_segment`: the constructor receives the
optionally sub-sliced raw text and the position marker. -/
def TemplateElement.to_segment (e : TemplateElement)
    (source_slice templated_slice : Nat × Nat) (subslice : Option (Nat × Nat)) : RawSeg :=
  let sliced := match subslice with
    | some (a, b) => extractRange e.raw a b
    | none => e.raw
  ⟨e.matcherName, sliced, source_slice, templated_slice⟩

/-- Inner slice walk of `iter_segments` for one element (lexer.rs lines
478-579).  The outer cursor `tfs_idx` at line 468 is immutable and stays 0,
the increments at line 521 are marked unused, and `consumed_element_length`
at line 475 is immutable and stays 0, so the walk restarts at slice index 0
for every element and consumed length 0 is baked in here.  The two panics
(whitespace with a stashed index, line 546; the unimplemented templated /
block_start branch, line 577) are `none`. -/
def iterElem (element : TemplateElement) :
    List TemplatedFileSlice → Nat → Option Nat → Option (List RawSeg)
  | [], _, _ => some []
  | tfs :: rest, tfs_idx, stashed_source_idx =>
    if tfs.templated_slice.1 = tfs.templated_slice.2 then
      iterElem element rest (tfs_idx + 1) stashed_source_idx
    else if tfs.slice_type = "literal" then
      let tfs_offset := tfs.source_slice.1 - tfs.templated_slice.1
      if element.template_slice.2 ≤ tfs.templated_slice.2 then
        let slice_start :=
          stashed_source_idx.getD (element.template_slice.1 + 0 + tfs_offset)
        some [element.to_segment
          (slice_start, element.template_slice.2 + tfs_offset)
          element.template_slice (some (0, element.raw.length))]
      else if element.template_slice.1 = tfs.templated_slice.2 then
        iterElem element rest (tfs_idx + 1) stashed_source_idx
      else if element.matcherName = "whitespace" then
        if stashed_source_idx.isSome then none
        else
          let incremental_length := tfs.templated_slice.2 - element.template_slice.1
          (iterElem element rest (tfs_idx + 1) stashed_source_idx).map
            (element.to_segment
              (element.template_slice.1 + 0 + tfs_offset, tfs.templated_slice.2 + tfs_offset)
              element.template_slice (some (0, 0 + incremental_length)) :: ·)
      else if stashed_source_idx.isNone then
        iterElem element rest (tfs_idx + 1) (some (element.template_slice.1 + tfs_idx))
      else
        iterElem element rest (tfs_idx + 1) stashed_source_idx
    else if tfs.slice_type = "templated" ∨ tfs.slice_type = "block_start" then
      none
    else
      iterElem element rest (tfs_idx + 1) stashed_source_idx

/-- lexer.rs `iter_segments` (lines 462-583): walk the slice map for each
element in order, concatenating the produced segments. -/
def iterSegments : List TemplateElement → TemplatedFile → Option (List RawSeg)
  | [], _ => some []
  | e :: rest, tf =>
    match iterElem e tf.sliced_file 0 none with
    | none => none
    | some segs => (iterSegments rest tf).map (segs ++ ·)

/-- The end-of-file marker appended by `Lexer::elements_to_segments`
(lexer.rs lines 449-456): positioned at the end point of the last segment,
or at the document start if there were none. -/
def appendEOF (segments : List RawSeg) : List RawSeg :=
  match segments.getLast? with
  | some seg =>
    segments ++ [⟨"end_of_file", [],
      (seg.source_slice.2, seg.source_slice.2),
      (seg.templated_slice.2, seg.templated_slice.2)⟩]
  | none => segments ++ [⟨"end_of_file", [], (0, 0), (0, 0)⟩]

/-- lexer.rs `Lexer::elements_to_segments`. -/
def elementsToSegments (elements : List TemplateElement) (templated_file : TemplatedFile) :
    Option (List RawSeg) :=
  (iterSegments elements templated_file).map appendEOF

/-- The main loop of `Lexer::lex` (lexer.rs lines 337-353), with fuel:
collect the elements of `lex_match`; if input remains, try the last-resort
matcher against the buffer the iteration started from, break when it
produced elements (discarding them), else advance and continue (the two
trailing statements of the Rust loop body, dead in practice because the
last-resort star pattern always produces an element). -/
def lexLoop (lexer_matchers : List Matcher) : Nat → List Element → List Char → List Element
  | 0, element_buffer, _ => element_buffer
  | fuel + 1, element_buffer, str_buff =>
    let res := lexMatch lexer_matchers str_buff
    let element_buffer := element_buffer ++ res.elements
    if res.forward_string = [] then element_buffer
    else
      let resort_res := lastResortLexer.matches str_buff
      if resort_res.elements = [] then
        lexLoop lexer_matchers fuel (element_buffer ++ resort_res.elements)
          resort_res.forward_string
      else element_buffer

/-- Rust `Result`. -/
inductive RResult (e a : Type) where
  | ok : a → RResult e a
  | err : e → RResult e a
deriving DecidableEq, Repr

/-- lexer.rs `Lexer::lex` on a plain string input: normalize into a
trivial `TemplatedFile`, run the matching loop, assign template slices,
build segments, and return `Ok` with an always-empty error vector.
`SQLLexError` and `ValueError` are modelled as their message strings; the
outer `Option` models the internal panics. -/
def Lexer.lex (lexer_matchers : List Matcher) (raw : List Char) :
    Option (RResult String (List RawSeg × List String)) :=
  let template := TemplatedFile.from_string raw
  let element_buffer := lexLoop lexer_matchers (raw.length + 1) [] raw
  match mapTemplateSlices element_buffer template with
  | none => none
  | some templated_buffer =>
    match elementsToSegments templated_buffer template with
    | none => none
    | some segments => some (.ok (segments, []))

/-- parser.rs `Parser::parse` (lines 23-62): an empty token list is an
explicit no-op `Ok(None)` before anything else runs.  Modelled from the
spec for the non-empty branch: `FileSegment::root_parse`, the position
fix-up and `check_still_complete` are not under src, so the root grammar
invocation is taken as a parameter producing the root segment or a
structured parse error. -/
def Parser.parse (root_parse : List RawSeg → RResult String RawSeg)
    (segments : List RawSeg) : RResult String (Option RawSeg) :=
  if segments.isEmpty then .ok none
  else
    match root_parse segments with
    | .ok root => .ok (some root)
    | .err e => .err e

/-- A matcher whose successful matches reproduce their consumed text: the
concatenation of the produced elements' texts followed by the remainder is
the input.  Matchers without a subdivider always have this property; a
subdivider without a trim pattern loses the text between dividers. -/
def CoverPreserving (m : Matcher) : Prop :=
  ∀ s : List Char,
    (((m.matches s).elements).map Element.text).flatten ++ (m.matches s).forward_string = s

/-! ## General lemmas about the embedded operations -/

/-- A successful anchored pattern match is a prefix of the input. -/
theorem Pattern.matches_take {p : Pattern} {s m : List Char}
    (h : p.matches s = some m) : s.take m.length = m := by
  obtain ⟨nm, kd⟩ := p
  cases kd with
  | string template =>
    simp only [Pattern.matches] at h
    split at h
    · next hc =>
      injection h with h2
      exact h2 ▸ hc
    · exact absurd h (by simp)
  | regex find =>
    simp only [Pattern.matches] at h
    split at h
    · split at h
      · injection h with h2
        subst h2
        rw [List.length_take]
        rcases le_total ‹Nat› s.length with h1 | h1
        · rw [inf_eq_left.mpr h1]
        · rw [inf_eq_right.mpr h1, List.take_length, List.take_of_length_le h1]
      · exact absurd h (by simp)
    · exact absurd h (by simp)

/-- A successful anchored pattern match followed by the remainder is the
input. -/
theorem Pattern.matches_append {p : Pattern} {s m : List Char}
    (h : p.matches s = some m) : m ++ s.drop m.length = s := by
  conv_rhs => rw [← List.take_append_drop m.length s]
  rw [Pattern.matches_take h]

/-- A matcher without a subdivider reproduces its consumed text. -/
theorem cover_noSubdivider (m : Matcher) (h : m.subdivider = none) :
    CoverPreserving m := by
  intro s
  cases hpm : m.pattern.matches s with
  | none => simp [Matcher.matches, hpm]
  | some matched =>
    simp [Matcher.matches, hpm, Matcher.subdivide, h]
    exact Pattern.matches_append hpm

/-- The first-non-empty scan returns the result of a member matcher. -/
theorem firstNonEmpty_spec {ms : List Matcher} {s : List Char} {r : LexMatch}
    (h : firstNonEmpty ms s = some r) : ∃ m, m ∈ ms ∧ r = m.matches s := by
  induction ms with
  | nil => simp [firstNonEmpty] at h
  | cons m t ih =>
    rw [firstNonEmpty, List.findSome?_cons] at h
    split at h
    · next b hb =>
      simp only [] at hb
      split at hb
      · exact absurd hb (by simp)
      · injection hb with hb2
        injection h with h2
        exact ⟨m, by simp, by rw [← h2, ← hb2]⟩
    · next hb =>
      obtain ⟨m2, hm2, hr⟩ := ih (by rw [firstNonEmpty]; exact h)
      exact ⟨m2, by simp [hm2], hr⟩

/-- Loop invariant of `lex_match` for cover-preserving matchers: the
concatenated element texts followed by the remainder reproduce the
input, at every fuel. -/
theorem lexMatchGo_cover {ms : List Matcher} (hcov : ∀ m ∈ ms, CoverPreserving m) :
    ∀ (fuel : Nat) (s : List Char),
      (((lexMatchGo ms fuel s).elements).map Element.text).flatten ++
        (lexMatchGo ms fuel s).forward_string = s := by
  intro fuel
  induction fuel with
  | zero => intro s; simp [lexMatchGo]
  | succ fuel ih =>
    intro s
    by_cases hs : s = []
    · simp [lexMatchGo, hs]
    · rw [lexMatchGo, if_neg hs]
      cases hf : firstNonEmpty ms s with
      | none => simp
      | some r =>
        obtain ⟨m, hm, hr⟩ := firstNonEmpty_spec hf
        simp only [List.map_append, List.flatten_append, List.append_assoc,
          ih r.forward_string]
        rw [hr]
        exact hcov m hm s

/-- The last-resort star pattern always produces an element. -/
theorem resort_nonempty (s : List Char) : (lastResortLexer.matches s).elements ≠ [] := by
  simp [Matcher.matches, lastResortLexer, Pattern.matches, unlexFind, Matcher.subdivide]

/-- The main loop of `Lexer::lex` always stops after its first iteration:
either the matchers consumed everything, or the last-resort matcher
produces a (discarded) element and the loop breaks. -/
theorem lexLoop_eq (ms : List Matcher) (fuel : Nat) (buf : List Element) (s : List Char) :
    lexLoop ms (fuel + 1) buf s = buf ++ (lexMatch ms s).elements := by
  rw [lexLoop]
  by_cases hf : (lexMatch ms s).forward_string = []
  · simp [hf]
  · simp [hf, resort_nonempty s]

/-- Without a trim pattern, `trim_match` returns the empty list. -/
theorem trimMatch_of_none {m : Matcher} (h : m.trim_post_subdivide = none)
    (s : List Char) : m.trimMatch s = [] := by
  rw [Matcher.trimMatch, h]

/-- Without a trim pattern, every element the subdividing loop emits is a
divider occurrence. -/
theorem subdivideAux_names {m : Matcher} {d : Pattern} (h : m.trim_post_subdivide = none) :
    ∀ (fuel : Nat) (s : List Char) (e : Element),
      e ∈ subdivideAux m d fuel s → e.name = d.name := by
  intro fuel
  induction fuel with
  | zero =>
    intro s e he
    rw [subdivideAux, trimMatch_of_none h] at he
    cases he
  | succ fuel ih =>
    intro s e he
    rw [subdivideAux] at he
    split at he
    · cases he
    · split at he
      · rw [trimMatch_of_none h] at he
        cases he
      · rw [trimMatch_of_none h] at he
        simp only [List.nil_append, List.mem_cons] at he
        rcases he with he | he
        · rw [he]
        · exact ih _ e he

/-- Without a trim pattern, the concatenated texts emitted by the
subdividing loop form a sublist of the matched text (the non-divider
portions are dropped). -/
theorem subdivideAux_sublist {m : Matcher} {d : Pattern}
    (h : m.trim_post_subdivide = none) :
    ∀ (fuel : Nat) (s : List Char),
      (((subdivideAux m d fuel s).map Element.text).flatten).Sublist s := by
  intro fuel
  induction fuel with
  | zero =>
    intro s
    rw [subdivideAux, trimMatch_of_none h]
    simp
  | succ fuel ih =>
    intro s
    rw [subdivideAux]
    split
    · simp
    · split
      · rw [trimMatch_of_none h]
        simp
      · next st en hsearch =>
        rw [trimMatch_of_none h]
        simp only [List.nil_append, List.map_cons, List.flatten_cons]
        have hrec := ih (s.drop en)
        rcases le_total st en with hle | hle
        · have hsplit : s = s.take st ++ (extractRange s st en ++ s.drop en) := by
            rw [extractRange]
            conv_lhs => rw [← List.take_append_drop st s]
            congr 1
            conv_lhs => rw [← List.take_append_drop (en - st) (s.drop st)]
            congr 1
            rw [List.drop_drop]
            congr 1
            omega
          have h2 : (extractRange s st en ++ s.drop en).Sublist s := by
            conv_rhs => rw [hsplit]
            exact List.sublist_append_right _ _
          exact (List.Sublist.append_left hrec _).trans h2
        · have hex : extractRange s st en = [] := by
            have hz : en - st = 0 := by omega
            rw [extractRange, hz]
            simp
          rw [hex, List.nil_append]
          exact hrec.trans (List.drop_sublist en s)

/-- The least-index characterisation of `str::find` for literals. -/
theorem strFind_spec (template : List Char) :
    ∀ (s : List Char) (i : Nat), strFind template s = some i →
      (s.drop i).take template.length = template ∧
      ∀ j, j < i → (s.drop j).take template.length ≠ template := by
  intro s
  induction s with
  | nil =>
    intro i h
    rw [strFind] at h
    split at h
    · next ht =>
      injection h with h2
      subst h2
      refine ⟨by simp [ht], by omega⟩
    · exact absurd h (by simp)
  | cons c t ih =>
    intro i h
    rw [strFind] at h
    split at h
    · next hc =>
      injection h with h2
      subst h2
      exact ⟨by simpa using hc, by omega⟩
    · next hc =>
      cases hf : strFind template t with
      | none => rw [hf] at h; cases h
      | some i0 =>
        rw [hf] at h
        injection h with h2
        have h2b : i0 + 1 = i := h2
        subst h2b
        obtain ⟨h1, h2⟩ := ih i0 hf
        refine ⟨by simpa using h1, ?_⟩
        intro j hj
        cases j with
        | zero => simpa using hc
        | succ j0 =>
          have := h2 j0 (by omega)
          simpa using this

/-! ## Claim theorems -/

/-- Claim C3: `lex_match` is first-match-wins.  At a non-empty position,
when the head matcher produces a non-empty element result it wins: its
elements are prepended, its remainder becomes the new remaining input on
which matcher selection restarts from the top of the full list, and (for a
plain matcher) the emitted element carries the head matcher's classifying
name. -/
theorem lex_match_first_match_wins
    (A : Matcher) (ms : List Matcher) (s : List Char) (fuel : Nat)
    (hs : s ≠ []) (hne : (A.matches s).elements ≠ []) :
    (lexMatchGo (A :: ms) (fuel + 1) s).elements =
      (A.matches s).elements ++
        (lexMatchGo (A :: ms) fuel ((A.matches s).forward_string)).elements ∧
    (lexMatchGo (A :: ms) (fuel + 1) s).forward_string =
      (lexMatchGo (A :: ms) fuel ((A.matches s).forward_string)).forward_string ∧
    (A.subdivider = none →
      ((lexMatchGo (A :: ms) (fuel + 1) s).elements.head?).map Element.name =
        some A.pattern.name) := by
  have hfirst : firstNonEmpty (A :: ms) s = some (A.matches s) := by
    rw [firstNonEmpty, List.findSome?_cons]
    simp only []
    rw [if_neg (by simpa using hne)]
  refine ⟨?_, ?_, ?_⟩
  · rw [lexMatchGo, if_neg hs, hfirst]
  · rw [lexMatchGo, if_neg hs, hfirst]
  · intro hsub
    rw [lexMatchGo, if_neg hs, hfirst]
    cases hpm : A.pattern.matches s with
    | none => exact absurd (by simp [Matcher.matches, hpm]) hne
    | some matched =>
      simp [Matcher.matches, hpm, Matcher.subdivide, hsub]

/-- Claim C4: the matcher configured with the function_script_terminator
regex, the semicolon subdivider and the newline trim pattern, run through
`lex_match` on the input of one semicolon, newline, slash, newline, yields
exactly three elements whose texts are the semicolon, the newline and the
slash, in that order. -/
theorem function_script_terminator_subdivision :
    (lexMatch [functionScriptTerminator] (';' :: '\n' :: '/' :: '\n' :: [])).elements.map
        Element.text = [[';'], ['\n'], ['/']] ∧
    (lexMatch [functionScriptTerminator]
        (';' :: '\n' :: '/' :: '\n' :: [])).elements.length = 3 :=
  ⟨rfl, rfl⟩

/-- Claim C7: `Pattern::matches` is anchored for both pattern kinds — a
returned match is the literal occurring as a prefix, respectively the
regex's leftmost occurrence which must start at offset 0 — while
`Pattern::search` is unanchored: for a literal it returns the range of the
first occurrence anywhere in the input, and for a regex the range of the
modelled leftmost occurrence. -/
theorem pattern_matches_anchored_search_unanchored
    (nm : String) (lit : List Char) (f : List Char → Option (Nat × Nat)) (s : List Char) :
    (∀ m, (Pattern.mk nm (.string lit)).matches s = some m →
        m = lit ∧ s.take m.length = m) ∧
    (∀ m, (Pattern.mk nm (.regex f)).matches s = some m →
        ∃ en, f s = some (0, en) ∧ m = s.take en) ∧
    (∀ st en, (Pattern.mk nm (.string lit)).search s = some (st, en) →
        en = st + lit.length ∧ (s.drop st).take lit.length = lit ∧
        ∀ j, j < st → (s.drop j).take lit.length ≠ lit) ∧
    (Pattern.mk nm (.regex f)).search s = f s := by
  refine ⟨?_, ?_, ?_, rfl⟩
  · intro m h
    have ht := Pattern.matches_take h
    simp only [Pattern.matches] at h
    split at h
    · injection h with h2
      exact ⟨h2.symm, ht⟩
    · exact absurd h (by simp)
  · intro m h
    have ht := Pattern.matches_take h
    simp only [Pattern.matches] at h
    split at h
    · next st en hf =>
      split at h
      · next hst =>
        injection h with h2
        subst hst
        exact ⟨en, hf, h2.symm⟩
      · exact absurd h (by simp)
    · exact absurd h (by simp)
  · intro st en h
    simp only [Pattern.search] at h
    cases hf : strFind lit s with
    | none => rw [hf] at h; cases h
    | some i =>
      rw [hf] at h
      injection h with h2
      have hst : st = i := by
        have := congrArg Prod.fst h2
        simpa using this.symm
      have hen : en = i + lit.length := by
        have := congrArg Prod.snd h2
        simpa using this.symm
      obtain ⟨h1, h2min⟩ := strFind_spec lit s i hf
      rw [hst]
      exact ⟨hen, h1, h2min⟩

/-- Claim C8: `Parser::parse` on an empty token list is an explicit no-op
`Ok(None)`, never an error, whatever the root grammar would do. -/
theorem parse_empty_tokens_noop
    (root_parse : List RawSeg → RResult String RawSeg) :
    Parser.parse root_parse [] = .ok none := rfl

/-- Claim C9: whenever `Lexer::lex` returns, it returns the `Ok` variant
and the error vector component is empty — no lex error is ever reported
through the public return value. -/
theorem lex_always_ok_no_errors (lexer_matchers : List Matcher) (s : List Char)
    (r : RResult String (List RawSeg × List String))
    (h : Lexer.lex lexer_matchers s = some r) :
    ∃ segments, r = .ok (segments, ([] : List String)) := by
  simp only [Lexer.lex] at h
  split at h
  · cases h
  · split at h
    · cases h
    · next segs hsegs =>
      injection h with h2
      exact ⟨segs, h2.symm⟩

/-- Claim C10: a matcher with a subdivider but no trim pattern emits only
the divider occurrences: its `trim_match` returns the empty list, every
emitted element carries the divider's name, the concatenated texts form a
(possibly strict) sublist of the matched text, and whenever they are
strictly shorter they cannot equal the matched text. -/
theorem subdivide_without_trim_only_dividers
    (m : Matcher) (d : Pattern)
    (hsub : m.subdivider = some d) (htrim : m.trim_post_subdivide = none) :
    (∀ s, m.trimMatch s = []) ∧
    (∀ fuel s e, e ∈ subdivideAux m d fuel s → e.name = d.name) ∧
    (∀ s e, e ∈ (m.matches s).elements → e.name = d.name) ∧
    (∀ fuel s, (((subdivideAux m d fuel s).map Element.text).flatten).Sublist s) ∧
    (∀ fuel s, (((subdivideAux m d fuel s).map Element.text).flatten).length < s.length →
      ((subdivideAux m d fuel s).map Element.text).flatten ≠ s) := by
  refine ⟨trimMatch_of_none htrim, subdivideAux_names htrim, ?_,
    subdivideAux_sublist htrim, ?_⟩
  · intro s e he
    cases hpm : m.pattern.matches s with
    | none => simp [Matcher.matches, hpm] at he
    | some matched =>
      simp only [Matcher.matches, hpm, Matcher.subdivide, hsub] at he
      exact subdivideAux_names htrim _ _ e he
  · intro fuel s hlt heq
    rw [heq] at hlt
    exact Nat.lt_irrefl _ hlt

/-! ## Lemmas about the newline regex model -/

/-- A character other than line feed and carriage return starts no newline
run. -/
theorem nlRun_of_ne {c : Char} (t : List Char) (h1 : c ≠ '\n') (h2 : c ≠ '\r') :
    nlRun (c :: t) = 0 := by
  unfold nlRun
  split
  · next heq => injection heq with ha; exact absurd ha h1
  · next heq => injection heq with ha; exact absurd ha h2
  · rfl

/-- The newline run of a list starting with a line feed. -/
theorem nlRun_cons_nl (t : List Char) : nlRun ('\n' :: t) = nlRun t + 1 := rfl

/-- A non-empty newline-free list prepended to anything has newline run
zero. -/
theorem nlRun_free_append {a : List Char} (ha : a ≠ [])
    (hfree : ∀ c ∈ a, c ≠ '\n' ∧ c ≠ '\r') (l : List Char) : nlRun (a ++ l) = 0 := by
  cases a with
  | nil => exact absurd rfl ha
  | cons c t =>
    have hc := hfree c (by simp)
    rw [List.cons_append]
    exact nlRun_of_ne _ hc.1 hc.2

/-- A non-empty newline-free list has newline run zero. -/
theorem nlRun_free {a : List Char} (ha : a ≠ [])
    (hfree : ∀ c ∈ a, c ≠ '\n' ∧ c ≠ '\r') : nlRun a = 0 := by
  have := nlRun_free_append ha hfree []
  rwa [List.append_nil] at this

/-- The newline find at a position with a positive run. -/
theorem nlFind_cons_pos {c : Char} {t : List Char} (h : 0 < nlRun (c :: t)) :
    nlFind (c :: t) = some (0, nlRun (c :: t)) := by
  rw [nlFind]
  simp [h]

/-- The newline find at a position with run zero shifts past it. -/
theorem nlFind_cons_zero {c : Char} {t : List Char} (h : nlRun (c :: t) = 0) :
    nlFind (c :: t) = (nlFind t).map (fun p => (p.1 + 1, p.2 + 1)) := by
  rw [nlFind]
  simp [h]

/-- Scanning past a newline-free block shifts the find result by its
length. -/
theorem nlFind_append_free {a : List Char}
    (hfree : ∀ c ∈ a, c ≠ '\n' ∧ c ≠ '\r') (l : List Char) :
    nlFind (a ++ l) = (nlFind l).map (fun p => (p.1 + a.length, p.2 + a.length)) := by
  induction a with
  | nil =>
    simp only [List.nil_append, List.length_nil]
    cases nlFind l with
    | none => rfl
    | some p => simp
  | cons c t ih =>
    have hc := hfree c (by simp)
    have hrun : nlRun (c :: (t ++ l)) = 0 := nlRun_of_ne _ hc.1 hc.2
    rw [List.cons_append, nlFind_cons_zero hrun, ih (fun x hx => hfree x (by simp [hx]))]
    cases nlFind l with
    | none => rfl
    | some p =>
      simp [Prod.ext_iff]
      omega

/-- A newline-free list has no newline occurrence. -/
theorem nlFind_free {a : List Char}
    (hfree : ∀ c ∈ a, c ≠ '\n' ∧ c ≠ '\r') : nlFind a = none := by
  have := nlFind_append_free hfree []
  simpa using this

/-- The trim loop on empty content and empty input emits nothing, at any
fuel. -/
theorem trimMatchAux_nil (pname : String) (t : Pattern) (fuel : Nat) :
    trimMatchAux pname t fuel [] [] = [] := by
  cases fuel <;> simp [trimMatchAux, trimFlush]

/-- Claim C5: behaviour of `trim_match` with a trim pattern configured,
shown on the newline trim pattern for arbitrary newline-free non-empty
blocks: a trim occurrence at offset 0 becomes its own leading trim
element; a trim occurrence strictly in the interior is folded into the
accumulating content buffer and gets no element of its own; a trim
occurrence ending exactly at the end of the remaining text flushes the
accumulated content as one element followed by the trailing trim element
as a separate element; and leftover content that never hit a terminal trim
condition becomes a final catch-all element tagged with the matcher's own
pattern name, not the trim pattern's name. -/
theorem trim_match_behavior
    (m : Matcher) (a b : List Char)
    (htrim : m.trim_post_subdivide = some newlinePattern)
    (ha : a ≠ []) (hb : b ≠ [])
    (hafree : ∀ c ∈ a, c ≠ '\n' ∧ c ≠ '\r')
    (hbfree : ∀ c ∈ b, c ≠ '\n' ∧ c ≠ '\r') :
    m.trimMatch ('\n' :: (a ++ '\n' :: (b ++ ['\n']))) =
      [⟨"newline", ['\n']⟩, ⟨"newline", a ++ '\n' :: b⟩, ⟨"newline", ['\n']⟩] ∧
    m.trimMatch ('\n' :: a) = [⟨"newline", ['\n']⟩, ⟨m.pattern.name, a⟩] := by
  constructor
  · have hsearch1 : newlinePattern.search ('\n' :: (a ++ '\n' :: (b ++ ['\n']))) =
        some (0, 1) := by
      show nlFind _ = _
      have hr : nlRun ('\n' :: (a ++ '\n' :: (b ++ ['\n']))) = 1 := by
        rw [nlRun_cons_nl, nlRun_free_append ha hafree]
      rw [nlFind_cons_pos (by omega), hr]
    have hsearch2 : newlinePattern.search (a ++ '\n' :: (b ++ ['\n'])) =
        some (a.length, a.length + 1) := by
      show nlFind _ = _
      rw [nlFind_append_free hafree]
      have hr : nlRun ('\n' :: (b ++ ['\n'])) = 1 := by
        rw [nlRun_cons_nl, nlRun_free_append hb hbfree]
      rw [nlFind_cons_pos (by omega), hr]
      simp [Prod.ext_iff]
      omega
    have hsearch3 : newlinePattern.search (b ++ ['\n']) =
        some (b.length, b.length + 1) := by
      show nlFind _ = _
      rw [nlFind_append_free hbfree,
        show nlFind ['\n'] = some (0, 1) from by decide]
      simp [Prod.ext_iff]
      omega
    have hstep1 : trimMatchAux m.pattern.name newlinePattern
        ((a.length + b.length + 3) + 1) [] ('\n' :: (a ++ '\n' :: (b ++ ['\n']))) =
        ⟨"newline", ['\n']⟩ :: trimMatchAux m.pattern.name newlinePattern
          (a.length + b.length + 3) [] (a ++ '\n' :: (b ++ ['\n'])) := by
      rw [trimMatchAux, if_neg (by simp), hsearch1]
      simp [newlinePattern]
    have hstep2 : trimMatchAux m.pattern.name newlinePattern
        ((a.length + b.length + 2) + 1) [] (a ++ '\n' :: (b ++ ['\n'])) =
        trimMatchAux m.pattern.name newlinePattern
          (a.length + b.length + 2) (a ++ ['\n']) (b ++ ['\n']) := by
      rw [trimMatchAux, if_neg (by simp)]
      simp only [hsearch2]
      rw [if_neg (by simp [ha]),
        if_neg (by simp only [List.length_append, List.length_cons]; omega)]
      congr 1
      · rw [List.nil_append, List.take_append_eq_append_take,
          List.take_of_length_le (by omega),
          show a.length + 1 - a.length = 1 from by omega]
        simp
      · rw [List.drop_append_eq_append_drop,
          List.drop_eq_nil_of_le (by omega : a.length ≤ a.length + 1),
          show a.length + 1 - a.length = 1 from by omega]
        simp
    have hstep3 : trimMatchAux m.pattern.name newlinePattern
        ((a.length + b.length + 1) + 1) (a ++ ['\n']) (b ++ ['\n']) =
        ⟨"newline", a ++ '\n' :: b⟩ :: ⟨"newline", ['\n']⟩ ::
          trimMatchAux m.pattern.name newlinePattern (a.length + b.length + 1) [] [] := by
      rw [trimMatchAux, if_neg (by simp)]
      simp only [hsearch3]
      rw [if_neg (by simp [hb]), if_pos (by simp [List.length_append])]
      have htake : (b ++ ['\n']).take b.length = b := List.take_left b ['\n']
      have hex : extractRange (b ++ ['\n']) b.length (b.length + 1) = ['\n'] := by
        rw [extractRange, List.drop_left]
        simp
      rw [htake, hex]
      simp [newlinePattern, List.append_assoc]
    simp only [Matcher.trimMatch, htrim]
    rw [show ('\n' :: (a ++ '\n' :: (b ++ ['\n']))).length + 1 =
        (a.length + b.length + 3) + 1 from by
          simp only [List.length_cons, List.length_append, List.length_nil]
          omega,
      hstep1,
      show a.length + b.length + 3 = (a.length + b.length + 2) + 1 from by omega,
      hstep2,
      show a.length + b.length + 2 = (a.length + b.length + 1) + 1 from by omega,
      hstep3, trimMatchAux_nil]
  · have hsearch1 : newlinePattern.search ('\n' :: a) = some (0, 1) := by
      show nlFind _ = _
      have hr : nlRun ('\n' :: a) = 1 := by
        rw [nlRun_cons_nl, nlRun_free ha hafree]
      rw [nlFind_cons_pos (by omega), hr]
    have hstep1 : trimMatchAux m.pattern.name newlinePattern
        ((a.length + 1) + 1) [] ('\n' :: a) =
        ⟨"newline", ['\n']⟩ ::
          trimMatchAux m.pattern.name newlinePattern (a.length + 1) [] a := by
      rw [trimMatchAux, if_neg (by simp), hsearch1]
      simp [newlinePattern]
    have hstep2 : trimMatchAux m.pattern.name newlinePattern (a.length + 1) [] a =
        [⟨m.pattern.name, a⟩] := by
      cases a with
      | nil => exact absurd rfl ha
      | cons c t =>
        rw [trimMatchAux, if_neg ha]
        simp only [show newlinePattern.search (c :: t) = none from nlFind_free hafree]
        simp [trimFlush, ha]
    simp only [Matcher.trimMatch, htrim]
    rw [show ('\n' :: a).length + 1 = (a.length + 1) + 1 from by simp,
      hstep1, hstep2]

/-- Claim C6: in `iter_segments`, when an element's templated slice spans
past the end of the current literal slice into the next one, the element
is split exactly when its matcher name is whitespace: the whitespace case
emits a partial segment holding the raw text up to the literal-slice
boundary and continues against the following slice (where the remaining
branch emits once more); a non-whitespace element instead stashes its
source start, defers, and when a later literal slice's end reaches or
exceeds the element's end a single segment is emitted whose source range
starts at the stashed index and covers the whole element. -/
theorem iter_segments_boundary_split
    (element : TemplateElement) (a bEnd : Nat)
    (ha : 0 < a) (h1 : element.template_slice.1 < a)
    (h2 : a < element.template_slice.2) (h3 : element.template_slice.2 ≤ bEnd)
    (h4 : a < bEnd) :
    (element.matcherName ≠ "whitespace" →
      iterElem element
          [⟨"literal", (0, a), (0, a)⟩, ⟨"literal", (a, bEnd), (a, bEnd)⟩] 0 none =
        some [⟨element.matcherName, element.raw,
          element.template_slice, element.template_slice⟩]) ∧
    (element.matcherName = "whitespace" →
      iterElem element
          [⟨"literal", (0, a), (0, a)⟩, ⟨"literal", (a, bEnd), (a, bEnd)⟩] 0 none =
        some [⟨"whitespace", element.raw.take (a - element.template_slice.1),
            (element.template_slice.1, a), element.template_slice⟩,
          ⟨"whitespace", element.raw,
            element.template_slice, element.template_slice⟩]) := by
  have hz1 : ¬ ((0 : Nat) = a) := by omega
  have hz2 : ¬ (a = bEnd) := by omega
  have hle1 : ¬ (element.template_slice.2 ≤ a) := by omega
  have heq1 : ¬ (element.template_slice.1 = a) := by omega
  constructor
  · intro hname
    simp [iterElem, hz1, hz2, hle1, heq1, h3, hname, TemplateElement.to_segment,
      extractRange, Prod.mk.eta]
  · intro hname
    simp [iterElem, hz1, hz2, hle1, heq1, h3, hname, TemplateElement.to_segment,
      extractRange, Prod.mk.eta]

/-! ## Lemmas for the round-trip theorem -/

/-- When the elements' concatenated texts occur at the cursor position in
the templated string, `map_template_slices` succeeds, assigns consecutive
slices, preserves raws and names, and every assigned slice ends within the
concatenation. -/
theorem mapTSAux_sound (tmpl : List Char) :
    ∀ (elements : List Element) (idx : Nat) (suffix : List Char),
      tmpl.drop idx = ((elements.map Element.text).flatten) ++ suffix →
      ∃ l, mapTSAux tmpl idx elements = some l ∧
        l.map TemplateElement.raw = elements.map Element.text ∧
        l.map TemplateElement.matcherName = elements.map Element.name ∧
        ∀ te ∈ l, te.template_slice.2 ≤
          idx + ((elements.map Element.text).flatten).length := by
  intro elements
  induction elements with
  | nil => intro idx suffix h; exact ⟨[], rfl, rfl, rfl, by simp⟩
  | cons e rest ih =>
    intro idx suffix h
    simp only [List.map_cons, List.flatten_cons, List.append_assoc] at h
    have htake : (tmpl.drop idx).take e.text.length = e.text := by
      rw [h]
      exact List.take_left e.text _
    have hdrop : tmpl.drop (idx + e.text.length) =
        ((rest.map Element.text).flatten) ++ suffix := by
      have h2 : tmpl.drop (idx + e.text.length) = (tmpl.drop idx).drop e.text.length :=
        (List.drop_drop e.text.length idx tmpl).symm
      rw [h2, h, List.drop_left]
    obtain ⟨l, hl, hraw, hnames, hbound⟩ := ih (idx + e.text.length) suffix hdrop
    refine ⟨⟨e.text, (idx, idx + e.text.length), e.name⟩ :: l, ?_, ?_, ?_, ?_⟩
    · simp only [mapTSAux]
      rw [if_pos htake, hl]
      rfl
    · simp [hraw]
    · simp [hnames]
    · intro te hte
      rcases List.mem_cons.mp hte with hte | hte
      · subst hte
        simp only [List.map_cons, List.flatten_cons, List.length_append]
        omega
      · have := hbound te hte
        simp only [List.map_cons, List.flatten_cons, List.length_append] at this ⊢
        omega

/-- On a single-literal-slice templated file covering positions 0 to n,
each element within bounds yields exactly one segment carrying its full
raw text and its templated slice as both slices. -/
theorem iterElem_single (te : TemplateElement) (n : Nat) (hn : 0 < n)
    (hb : te.template_slice.2 ≤ n) :
    iterElem te [⟨"literal", (0, n), (0, n)⟩] 0 none =
      some [⟨te.matcherName, te.raw, te.template_slice, te.template_slice⟩] := by
  have hz : ¬ ((0 : Nat) = n) := by omega
  simp [iterElem, hz, hb, TemplateElement.to_segment, extractRange, Prod.mk.eta]

/-- `iter_segments` on a single-literal-slice templated file maps each
element to its one segment. -/
theorem iterSegments_single (s : List Char) (n : Nat) (hn : 0 < n) :
    ∀ (l : List TemplateElement), (∀ te ∈ l, te.template_slice.2 ≤ n) →
      iterSegments l ⟨s, [⟨"literal", (0, n), (0, n)⟩]⟩ =
        some (l.map fun te =>
          (⟨te.matcherName, te.raw, te.template_slice, te.template_slice⟩ : RawSeg)) := by
  intro l
  induction l with
  | nil => intro _; rfl
  | cons te rest ih =>
    intro hb
    rw [iterSegments]
    simp only [show (⟨s, [⟨"literal", (0, n), (0, n)⟩]⟩ : TemplatedFile).sliced_file =
        [⟨"literal", (0, n), (0, n)⟩] from rfl,
      iterElem_single te n hn (hb te (by simp)),
      ih (fun x hx => hb x (by simp [hx]))]
    rfl

/-- The appended end-of-file segment always carries the end-of-file name
and empty raw text. -/
theorem appendEOF_spec (segs : List RawSeg) :
    ∃ p q, appendEOF segs = segs ++ [⟨"end_of_file", [], p, q⟩] := by
  cases h : segs.getLast? with
  | none => rw [appendEOF, h]; exact ⟨(0, 0), (0, 0), rfl⟩
  | some seg => rw [appendEOF, h]; exact ⟨_, _, rfl⟩

/-! ## Round-trip claim -/

/-- Claim C1 (amended): for matcher lists whose matchers preserve their
consumed text, `Lexer::lex` on a plain string succeeds with `Ok` and no
errors, the appended end-of-file segment contributes empty text, and the
concatenation of the raw texts of the returned leaf segments equals the
prefix of the input consumed by `lex_match` — all of the input exactly
when `lex_match` consumed everything. -/
theorem lex_concat_consumed_prefix
    (lexer_matchers : List Matcher) (s : List Char)
    (hcov : ∀ m ∈ lexer_matchers, CoverPreserving m) :
    ∃ body eof,
      Lexer.lex lexer_matchers s = some (.ok (body ++ [eof], [])) ∧
      eof.raw = [] ∧ eof.name = "end_of_file" ∧
      ((body ++ [eof]).map RawSeg.raw).flatten ++
        (lexMatch lexer_matchers s).forward_string = s ∧
      ((lexMatch lexer_matchers s).forward_string = [] →
        ((body ++ [eof]).map RawSeg.raw).flatten = s) := by
  have hcover : (((lexMatch lexer_matchers s).elements).map Element.text).flatten ++
      (lexMatch lexer_matchers s).forward_string = s :=
    lexMatchGo_cover hcov (s.length + 1) s
  by_cases hs : s = []
  · subst hs
    have hfwd : (lexMatch lexer_matchers []).forward_string = ([] : List Char) := by
      simp [lexMatch, lexMatchGo]
    refine ⟨[], ⟨"end_of_file", [], (0, 0), (0, 0)⟩, rfl, rfl, rfl, ?_, ?_⟩
    · simp [hfwd]
    · intro _
      simp
  · have hdrop0 : s.drop 0 =
        (((lexMatch lexer_matchers s).elements).map Element.text).flatten ++
          (lexMatch lexer_matchers s).forward_string := by
      simpa using hcover.symm
    obtain ⟨l, hl, hraw, hnames, hbound⟩ :=
      mapTSAux_sound s ((lexMatch lexer_matchers s).elements) 0
        ((lexMatch lexer_matchers s).forward_string) hdrop0
    have hn : 0 < s.length := List.length_pos.mpr hs
    have hflatlen :
        ((((lexMatch lexer_matchers s).elements).map Element.text).flatten).length ≤
          s.length := by
      have := congrArg List.length hcover
      simp only [List.length_append] at this
      omega
    have hbound2 : ∀ te ∈ l, te.template_slice.2 ≤ s.length := by
      intro te hte
      have := hbound te hte
      omega
    have hiter : iterSegments l (TemplatedFile.from_string s) =
        some (l.map fun te =>
          (⟨te.matcherName, te.raw, te.template_slice, te.template_slice⟩ : RawSeg)) :=
      iterSegments_single s s.length hn l hbound2
    obtain ⟨p, q, heof⟩ := appendEOF_spec
      (l.map fun te =>
        (⟨te.matcherName, te.raw, te.template_slice, te.template_slice⟩ : RawSeg))
    have hl2 : mapTemplateSlices ((lexMatch lexer_matchers s).elements)
        (TemplatedFile.from_string s) = some l := hl
    have hels : elementsToSegments l (TemplatedFile.from_string s) =
        some (appendEOF (l.map fun te =>
          (⟨te.matcherName, te.raw, te.template_slice, te.template_slice⟩ : RawSeg))) := by
      rw [elementsToSegments, hiter]
      rfl
    have hmapraw : (((l.map fun (te : TemplateElement) =>
        (⟨te.matcherName, te.raw, te.template_slice,
        te.template_slice⟩ : RawSeg)) ++ ([⟨"end_of_file", [], p, q⟩] : List RawSeg)).map RawSeg.raw) =
        ((((lexMatch lexer_matchers s).elements).map Element.text) ++ [[]]) := by
      rw [List.map_append, List.map_map, ← hraw]
      rfl
    have hmain : (((l.map fun (te : TemplateElement) =>
        (⟨te.matcherName, te.raw, te.template_slice,
        te.template_slice⟩ : RawSeg)) ++ ([⟨"end_of_file", [], p, q⟩] : List RawSeg)).map RawSeg.raw).flatten ++
        (lexMatch lexer_matchers s).forward_string = s := by
      rw [hmapraw, List.flatten_append]
      simp only [List.flatten_cons, List.flatten_nil, List.append_nil]
      exact hcover
    refine ⟨l.map fun te =>
        (⟨te.matcherName, te.raw, te.template_slice, te.template_slice⟩ : RawSeg),
      ⟨"end_of_file", [], p, q⟩, ?_, rfl, rfl, hmain, ?_⟩
    · simp only [Lexer.lex, lexLoop_eq, List.nil_append, hl2, hels]
      rw [heof]
    · intro hfwd
      rw [hfwd, List.append_nil] at hmain
      exact hmain

/-- Claim C1, counterexample to the claim as stated: with the dot string
matcher of the lexer tests, input of a single letter leaves the matchers
with no progress; `lex` returns only the end-of-file segment and the
concatenated raw texts do not reproduce the input. -/
theorem lex_roundtrip_counterexample :
    Lexer.lex [dotMatcher] ['a'] =
      some (.ok ([⟨"end_of_file", [], (0, 0), (0, 0)⟩], [])) ∧
    (([⟨"end_of_file", [], (0, 0), (0, 0)⟩] : List RawSeg).map RawSeg.raw).flatten ≠
      ['a'] :=
  ⟨rfl, by decide⟩

/-- Claim C2, evaluation at the failing input: ordinary matchers make no
progress on the two-letter input, the last-resort matcher does produce an
unlexable element for the offending text, yet `lex` discards it and
returns only the end-of-file segment with an empty error list — no
Unlexable token is emitted and no violation is surfaced. -/
theorem lex_unlexable_dropped :
    Lexer.lex [dotMatcher] ('a' :: 'b' :: []) =
      some (.ok ([⟨"end_of_file", [], (0, 0), (0, 0)⟩], [])) ∧
    (lastResortLexer.matches ('a' :: 'b' :: [])).elements =
      [⟨"<unlexable>", ['a', 'b']⟩] :=
  ⟨rfl, rfl⟩

/-! ## Witnesses -/

theorem lex_concat_consumed_prefix_witness :
    ∃ body eof,
      Lexer.lex [dotMatcher] ['.'] = some (.ok (body ++ [eof], [])) ∧
      eof.raw = [] ∧ eof.name = "end_of_file" ∧
      ((body ++ [eof]).map RawSeg.raw).flatten ++
        (lexMatch [dotMatcher] ['.']).forward_string = ['.'] ∧
      ((lexMatch [dotMatcher] ['.']).forward_string = [] →
        ((body ++ [eof]).map RawSeg.raw).flatten = ['.']) :=
  lex_concat_consumed_prefix [dotMatcher] ['.'] (by
    intro m hm
    rw [List.mem_singleton] at hm
    subst hm
    exact cover_noSubdivider dotMatcher rfl)

theorem lex_match_first_match_wins_witness :
    ((lexMatchGo (lambdaMatcher :: [dashMatcher]) (1 + 1) ('-' :: '>' :: [])).elements.head?).map
        Element.name = some "lambda" :=
  (lex_match_first_match_wins lambdaMatcher [dashMatcher] ('-' :: '>' :: []) 1
    (by decide) (by decide)).2.2 rfl

theorem trim_match_behavior_witness :
    functionScriptTerminator.trimMatch ('\n' :: 'x' :: '\n' :: 'y' :: '\n' :: []) =
      [⟨"newline", ['\n']⟩, ⟨"newline", ['x', '\n', 'y']⟩, ⟨"newline", ['\n']⟩] ∧
    functionScriptTerminator.trimMatch ('\n' :: 'x' :: []) =
      [⟨"newline", ['\n']⟩, ⟨"function_script_terminator", ['x']⟩] := by
  have h := trim_match_behavior functionScriptTerminator ['x'] ['y'] rfl
    (by decide) (by decide) (by decide) (by decide)
  exact ⟨h.1, h.2⟩

theorem iter_segments_boundary_split_witness :
    iterElem ⟨['x', 'y'], (1, 3), "word"⟩
        [⟨"literal", (0, 2), (0, 2)⟩, ⟨"literal", (2, 4), (2, 4)⟩] 0 none =
      some [⟨"word", ['x', 'y'], (1, 3), (1, 3)⟩] :=
  (iter_segments_boundary_split ⟨['x', 'y'], (1, 3), "word"⟩ 2 4
    (by decide) (by decide) (by decide) (by decide) (by decide)).1 (by decide)

theorem pattern_matches_anchored_search_unanchored_witness :
    (('.' :: 'a' :: []) : List Char).take 1 = ['.'] :=
  ((pattern_matches_anchored_search_unanchored "dot" ['.'] nlFind
    ('.' :: 'a' :: [])).1 ['.'] rfl).2

theorem lex_always_ok_no_errors_witness :
    ∃ segments,
      (RResult.ok ([⟨"dot", ['.'], (0, 1), (0, 1)⟩, ⟨"end_of_file", [], (1, 1), (1, 1)⟩],
        ([] : List String)) : RResult String (List RawSeg × List String)) =
        .ok (segments, ([] : List String)) :=
  lex_always_ok_no_errors [dotMatcher] ['.'] _ rfl

theorem subdivide_without_trim_only_dividers_witness :
    fstNoTrim.trimMatch ['a'] = [] :=
  (subdivide_without_trim_only_dividers fstNoTrim semicolonPattern rfl rfl).1 ['a']

